import Mathlib

/-!
Verification of the inventory comparison engine of `src/inventory_diff.py`.

The engine is embedded shallowly:

* a cell value is a `String` (the tables are loaded with `dtype=str` and
  `fillna("")`), and a possibly-missing cell is an `Option String`;
* a record (one row, `row.to_dict()`) is an ordered association list from
  column name to cell text;
* a Python dict keyed by strings is an association list with distinct keys,
  updated in place (insertion order preserved, later writes overwrite);
* Python float values reaching the engine are decimal literals built from
  digit-and-dot strings; they are modelled as exact rationals, and the
  `.0f` / `+.0f` formats are modelled with round-half-to-even;
* Python truthiness of optional dicts (None and the empty dict are falsy)
  is modelled explicitly by `pyTruthy`.
-/

namespace InventoryDiff

/-- Characters removed by the Python `strip` method (whitespace; the ASCII
whitespace characters plus the ideographic space cover the inputs the
engine is specified on). -/
def isPySpace (c : Char) : Bool :=
  c = ' ' || c = '\t' || c = '\n' || c = '\r' || c = '\x0b' || c = '\x0c' || c = '　'

/-- Python `str(value).strip()`: remove leading and trailing whitespace. -/
def pyStrip (s : String) : String :=
  String.mk (((s.data.dropWhile isPySpace).reverse.dropWhile isPySpace).reverse)

/-- Value of a list of decimal digit characters read left to right. -/
def digitsVal (l : List Char) : ℕ :=
  l.foldl (fun a c => 10 * a + (c.toNat - 48)) 0

/-- Python `float(s)` for a string made of digit and dot characters only:
it succeeds exactly when there is at most one dot and at least one digit,
and then denotes the decimal value `intPart.fracPart`. -/
def pyFloatOfDigitDot (l : List Char) : Option ℚ :=
  if l.count '.' ≤ 1 ∧ l.any Char.isDigit then
    some ((digitsVal (l.takeWhile (fun c => c ≠ '.')) : ℚ) +
      (digitsVal ((l.dropWhile (fun c => c ≠ '.')).drop 1) : ℚ) /
        (10 ^ ((l.dropWhile (fun c => c ≠ '.')).drop 1).length))
  else none

/-- Embedding of `parse_stock_value` (src/inventory_diff.py, lines 186-204).  The input
is the cell value handed to it by the engine: `none` models `None` (an
absent column, for which `pd.isna` is true), `some v` a text cell.  The
float result is modelled as an exact rational. -/
def parse_stock_value (value : Option String) : ℚ × String :=
  match value with
  | none => (0, "")
  | some v =>
    if v = "" then (0, "")
    else
      let original_value := pyStrip v
      if original_value = "●" then (0, "●")
      else
        let cleaned_value := v.data.filter (fun c => c.isDigit || c = '.')
        if cleaned_value.isEmpty then (0, original_value)
        else
          match pyFloatOfDigitDot cleaned_value with
          | some q => (q, original_value)
          | none => (0, original_value)

/-- Configuration `CONFIG.KEY_COLUMNS`: the configured identifying columns. -/
def KEY_COLUMNS : List String := ["品番", "サイズ枠", "カラーコード", "サイズ名", "ＪＡＮコード"]

/-- Configuration `CONFIG.STOCK_COLUMN`: the designated stock column. -/
def STOCK_COLUMN : String := "在庫数"

/-- One row of a table: `row.to_dict()` as an ordered association list. -/
abbrev Record := List (String × String)

/-- Python `row.get(col, "")`: dictionary lookup with an empty-string default. -/
def getValD (r : Record) (c : String) : String :=
  ((r.find? (fun p => p.1 = c)).map Prod.snd).getD ""

/-- Python `row.get(col)`: dictionary lookup, `None` when the column is absent. -/
def getVal? (r : Record) (c : String) : Option String :=
  (r.find? (fun p => p.1 = c)).map Prod.snd

/-- Embedding of `InventoryComparator._generate_key` (lines 330-332): the trimmed values
of the identifying columns joined with a pipe. -/
def generate_key (row : Record) : String :=
  String.intercalate "|" (KEY_COLUMNS.map (fun col => pyStrip (getValD row col)))

/-- Insert-or-overwrite update of a Python dict modelled as an association
list: an existing binding is updated in place, a new one is appended. -/
def dictInsert (m : List (String × Record)) (k : String) (v : Record) :
    List (String × Record) :=
  if m.any (fun p => p.1 = k) then
    m.map (fun p => if p.1 = k then (k, v) else p)
  else m ++ [(k, v)]

/-- One step of the dict comprehension of `_create_data_map`: skip a row
with a falsy (empty) key, otherwise bind its key, overwriting any earlier
binding. -/
def mapStep (m : List (String × Record)) (row : Record) : List (String × Record) :=
  let k := generate_key row
  if k = "" then m else dictInsert m k row

/-- Embedding of `InventoryComparator._create_data_map` (lines 334-340): the dict
comprehension keyed by `_generate_key`, skipping falsy (empty) keys;
later rows overwrite earlier ones with the same key. -/
def create_data_map (rows : List Record) : List (String × Record) :=
  rows.foldl mapStep []

/-- Python `map.get(key)`: dictionary lookup returning `None` when absent. -/
def mapGet (m : List (String × Record)) (k : String) : Option Record :=
  (m.find? (fun p => p.1 = k)).map Prod.snd

/-- Python truthiness of `row1` / `row2` in the comparator: `None` and the
empty dict are falsy, a non-empty dict is truthy. -/
def pyTruthy : Option Record → Bool
  | none => false
  | some r => !r.isEmpty

/-- The four classification tags of a `ComparisonItem`. -/
inductive ItemType
  | added
  | deleted
  | modified
  | unchanged
deriving DecidableEq, Repr

/-- Embedding of `ComparisonItem` (lines 69-79). -/
structure ComparisonItem where
  type : ItemType
  data : Record
  stock1 : ℚ
  stock2 : ℚ
  stock1_display : String
  stock2_display : String
  stock_change : ℚ
  key : String
deriving DecidableEq, Repr

/-- Embedding of `ComparisonSummary` (lines 81-91). -/
structure ComparisonSummary where
  added : ℕ
  deleted : ℕ
  modified : ℕ
  unchanged : ℕ
deriving DecidableEq, Repr

/-- Embedding of the derived total `ComparisonSummary.total_items`. -/
def ComparisonSummary.total_items (s : ComparisonSummary) : ℕ :=
  s.added + s.deleted + s.modified + s.unchanged

/-- Embedding of `InventoryComparator._determine_item_type` (lines 342-357); the
`ValueError` raised when both rows are falsy is modelled as `none`. -/
def determine_item_type (row1 row2 : Option Record)
    (stock1_display stock2_display : String) : Option (ItemType × Record) :=
  if pyTruthy row1 && pyTruthy row2 then
    some (if stock1_display ≠ stock2_display then .modified else .unchanged,
      row2.getD [])
  else if pyTruthy row2 && !pyTruthy row1 then
    some (.added, row2.getD [])
  else if pyTruthy row1 && !pyTruthy row2 then
    some (.deleted, row1.getD [])
  else none

/-- Counter update of the per-type summary counters inside `compare`. -/
def bumpSummary (s : ComparisonSummary) : ItemType → ComparisonSummary
  | .added => ⟨s.added + 1, s.deleted, s.modified, s.unchanged⟩
  | .deleted => ⟨s.added, s.deleted + 1, s.modified, s.unchanged⟩
  | .modified => ⟨s.added, s.deleted, s.modified + 1, s.unchanged⟩
  | .unchanged => ⟨s.added, s.deleted, s.modified, s.unchanged + 1⟩

/-- The body of the per-key loop of `InventoryComparator.compare`
(lines 370-410): look both rows up, parse the stock cell of each truthy
side, classify; `none` when classification raises (both sides falsy). -/
def processKey (map1 map2 : List (String × Record)) (key : String) :
    Option ComparisonItem :=
  let row1 := mapGet map1 key
  let row2 := mapGet map2 key
  let p1 := if pyTruthy row1 then parse_stock_value (getVal? (row1.getD []) STOCK_COLUMN)
    else (0, "")
  let p2 := if pyTruthy row2 then parse_stock_value (getVal? (row2.getD []) STOCK_COLUMN)
    else (0, "")
  match determine_item_type row1 row2 p1.2 p2.2 with
  | none => none
  | some (t, d) => some ⟨t, d, p1.1, p2.1, p1.2, p2.2, p2.1 - p1.1, key⟩

/-- Embedding of `sorted(set(map1.keys()) | set(map2.keys()))` (line 365). -/
def all_keys (map1 map2 : List (String × Record)) : List String :=
  List.insertionSort (fun a b => a ≤ b)
    ((map1.map Prod.fst ++ map2.map Prod.fst).dedup)

/-- Embedding of `InventoryComparator.compare` (lines 359-412). -/
def compare (data1 data2 : List Record) :
    List ComparisonItem × ComparisonSummary :=
  let map1 := create_data_map data1
  let map2 := create_data_map data2
  (all_keys map1 map2).foldl (fun acc key =>
      match processKey map1 map2 key with
      | none => acc
      | some item => (acc.1 ++ [item], bumpSummary acc.2 item.type))
    ([], ⟨0, 0, 0, 0⟩)

/-- One input table: the DataFrame column list plus its rows. -/
structure Table where
  cols : List String
  rows : List Record

/-- Pandas `DataFrame.empty`: true when either axis has length zero. -/
def Table.isEmpty (t : Table) : Bool := t.rows.isEmpty || t.cols.isEmpty

/-- A table loaded through pandas is well formed: every row dictionary has
exactly the table columns as keys, in order. -/
def Table.wf (t : Table) : Prop := ∀ r ∈ t.rows, r.map Prod.fst = t.cols

/-- The outcomes of `validate_data`; the four failure messages of the
source are pairwise distinct strings, modelled by distinct constructors. -/
inductive ValidationResult
  | ok
  | emptyTable
  | schemaMismatch
  | missingKeyColumns (missing : List String)
  | missingStockColumn
deriving DecidableEq, Repr

/-- Embedding of `InventoryComparator.validate_data` (lines 313-328). -/
def validate_data (data1 data2 : Table) : ValidationResult :=
  if data1.isEmpty || data2.isEmpty then .emptyTable
  else if data1.cols.toFinset ≠ data2.cols.toFinset then .schemaMismatch
  else
    let missing_keys := KEY_COLUMNS.filter (fun key => key ∉ data1.cols)
    if missing_keys ≠ [] then .missingKeyColumns missing_keys
    else if STOCK_COLUMN ∉ data1.cols then .missingStockColumn
    else .ok

/-- Round half to even: the rounding applied by the Python `.0f` format
(on the exact values the engine produces). -/
def roundHalfEven (q : ℚ) : ℤ :=
  if Int.fract q < 1 / 2 then ⌊q⌋
  else if 1 / 2 < Int.fract q then ⌊q⌋ + 1
  else if ⌊q⌋ % 2 = 0 then ⌊q⌋ else ⌊q⌋ + 1

/-- The Python format `{x:.0f}`: round half to even, no decimal point; a
negative value rounding to zero prints the sign of the value. -/
def fmtF0 (q : ℚ) : String :=
  let n := roundHalfEven q
  if n = 0 ∧ q < 0 then "-0" else toString n

/-- The Python format `{x:+.0f}`: as `fmtF0` but with an explicit leading
sign. -/
def fmtPlusF0 (q : ℚ) : String :=
  let n := roundHalfEven q
  if n < 0 ∨ (n = 0 ∧ q < 0) then "-" ++ toString n.natAbs
  else "+" ++ toString n.natAbs

/-- Embedding of `format_stock_display` (lines 206-221): the exported display triple
(side-1 stock, side-2 stock, delta). -/
def format_stock_display (item : ComparisonItem) : String × String × String :=
  if item.type = .added then
    ("",
     if item.stock2_display = "●" then item.stock2_display else fmtF0 item.stock2,
     "")
  else if item.type = .deleted then
    (if item.stock1_display = "●" then item.stock1_display else fmtF0 item.stock1,
     "",
     "")
  else
    (if item.stock1_display = "●" then item.stock1_display else fmtF0 item.stock1,
     if item.stock2_display = "●" then item.stock2_display else fmtF0 item.stock2,
     if item.stock1_display = "●" || item.stock2_display = "●" then ""
     else fmtPlusF0 item.stock_change)

/-- Configuration `CONFIG.TYPE_EXPORT_MAP`. -/
def TYPE_EXPORT_MAP : ItemType → String
  | .added => "追加"
  | .deleted => "削除"
  | .modified => "在庫変更"
  | .unchanged => "変更なし"

/-- One output row of `create_csv_data` (lines 418-443), before the
pandas serialization and byte encoding (pass-through concerns). -/
def create_csv_row (columns : List String) (item : ComparisonItem) :
    List (String × String) :=
  [("変更タイプ", TYPE_EXPORT_MAP item.type),
   ("ファイル1在庫", (format_stock_display item).1),
   ("ファイル2在庫", (format_stock_display item).2.1),
   ("在庫変化", (format_stock_display item).2.2),
   ("比較キー", item.key)] ++
  columns.map (fun col => (col, getValD item.data col))

/-- Embedding of `create_csv_data`: the rows of the exported artifact (an empty item
list yields an empty export). -/
def create_csv_data (items : List ComparisonItem) (columns : List String) :
    List (List (String × String)) :=
  if items.isEmpty then [] else items.map (create_csv_row columns)

/-! ### Association-list (Python dict) lemmas -/

theorem mapGet_nil (k : String) : mapGet [] k = none := rfl

theorem find?_overwrite (m : List (String × Record)) (k : String) (v : Record) :
    (m.map (fun p => if p.1 = k then (k, v) else p)).find? (fun p => p.1 = k) =
      (m.find? (fun p => p.1 = k)).map (fun _ => (k, v)) := by
  induction m with
  | nil => rfl
  | cons p t ih =>
    by_cases hp : p.1 = k
    · rw [List.map_cons, if_pos hp,
        List.find?_cons_of_pos _ (by simp), List.find?_cons_of_pos _ (by simp [hp])]
      rfl
    · rw [List.map_cons, if_neg hp,
        List.find?_cons_of_neg _ (by simp [hp]), List.find?_cons_of_neg _ (by simp [hp])]
      exact ih

theorem find?_overwrite_ne (m : List (String × Record)) {j k : String} (v : Record)
    (h : j ≠ k) :
    (m.map (fun p => if p.1 = j then (j, v) else p)).find? (fun p => p.1 = k) =
      m.find? (fun p => p.1 = k) := by
  induction m with
  | nil => rfl
  | cons p t ih =>
    by_cases hp : p.1 = j
    · rw [List.map_cons, if_pos hp,
        List.find?_cons_of_neg _ (by simp [h]),
        List.find?_cons_of_neg _ (by simp [hp ▸ h])]
      exact ih
    · rw [List.map_cons, if_neg hp]
      by_cases hpk : p.1 = k
      · rw [List.find?_cons_of_pos _ (by simp [hpk]),
          List.find?_cons_of_pos _ (by simp [hpk])]
      · rw [List.find?_cons_of_neg _ (by simp [hpk]),
          List.find?_cons_of_neg _ (by simp [hpk])]
        exact ih

theorem mapGet_dictInsert_self (m : List (String × Record)) (k : String) (v : Record) :
    mapGet (dictInsert m k v) k = some v := by
  unfold dictInsert mapGet
  by_cases h : m.any (fun p => p.1 = k)
  · rw [if_pos h, find?_overwrite]
    rcases hf : m.find? (fun p => p.1 = k) with _ | p
    · rw [List.find?_eq_none] at hf
      rw [List.any_eq_true] at h
      obtain ⟨p, hp, hpk⟩ := h
      exact absurd hpk (hf p hp)
    · rw [hf]
      rfl
  · rw [if_neg h, List.find?_append]
    have hn : m.find? (fun p => p.1 = k) = none := by
      rw [List.find?_eq_none]
      intro x hx hpx
      exact h (List.any_eq_true.mpr ⟨x, hx, hpx⟩)
    rw [hn, List.find?_cons_of_pos _ (by simp)]
    rfl

theorem mapGet_dictInsert_ne (m : List (String × Record)) {j k : String} (v : Record)
    (h : j ≠ k) : mapGet (dictInsert m j v) k = mapGet m k := by
  unfold dictInsert mapGet
  by_cases hm : m.any (fun p => p.1 = j)
  · rw [if_pos hm, find?_overwrite_ne m v h]
  · rw [if_neg hm, List.find?_append, List.find?_cons_of_neg _ (by simp [h])]
    simp only [List.find?_nil, Option.or_none]

theorem keys_dictInsert_of_mem (m : List (String × Record)) (k : String) (v : Record)
    (h : m.any (fun p => p.1 = k)) :
    (dictInsert m k v).map Prod.fst = m.map Prod.fst := by
  unfold dictInsert
  simp only [if_pos h, List.map_map]
  apply List.map_congr_left
  intro p _
  by_cases hp : p.1 = k
  · simp [hp]
  · simp [hp]

theorem keys_dictInsert_of_not_mem (m : List (String × Record)) (k : String) (v : Record)
    (h : ¬ m.any (fun p => p.1 = k)) :
    (dictInsert m k v).map Prod.fst = m.map Prod.fst ++ [k] := by
  unfold dictInsert
  simp [if_neg h]

theorem any_key_iff (m : List (String × Record)) (k : String) :
    m.any (fun p => p.1 = k) = true ↔ k ∈ m.map Prod.fst := by
  simp only [List.any_eq_true, decide_eq_true_eq, List.mem_map]

theorem mem_dictInsert (m : List (String × Record)) (k : String) (v : Record)
    {e : String × Record} (he : e ∈ dictInsert m k v) : e = (k, v) ∨ e ∈ m := by
  unfold dictInsert at he
  by_cases h : m.any (fun p => p.1 = k)
  · rw [if_pos h] at he
    obtain ⟨p, hp, hpe⟩ := List.mem_map.mp he
    by_cases hpk : p.1 = k
    · rw [if_pos hpk] at hpe
      exact Or.inl hpe.symm
    · rw [if_neg hpk] at hpe
      exact Or.inr (hpe ▸ hp)
  · rw [if_neg h] at he
    rcases List.mem_append.mp he with h1 | h1
    · exact Or.inr h1
    · exact Or.inl (List.mem_singleton.mp h1)

theorem mem_keys_dictInsert (m : List (String × Record)) (j k : String) (v : Record) :
    k ∈ (dictInsert m j v).map Prod.fst ↔ k ∈ m.map Prod.fst ∨ k = j := by
  by_cases h : m.any (fun p => p.1 = j)
  · rw [keys_dictInsert_of_mem m j v h]
    constructor
    · exact Or.inl
    · rintro (hk | rfl)
      · exact hk
      · exact (any_key_iff m k).mp h
  · rw [keys_dictInsert_of_not_mem m j v h]
    simp

/-! ### `_create_data_map` lemmas -/

theorem mem_foldl_mapStep {rows : List Record} {m : List (String × Record)}
    {e : String × Record} (he : e ∈ rows.foldl mapStep m) :
    e ∈ m ∨ (e.2 ∈ rows ∧ generate_key e.2 = e.1 ∧ e.1 ≠ "") := by
  induction rows generalizing m with
  | nil => exact Or.inl he
  | cons r t ih =>
    rw [List.foldl_cons] at he
    rcases ih he with h1 | h1
    · unfold mapStep at h1
      by_cases hk : generate_key r = ""
      · rw [if_pos hk] at h1
        exact Or.inl h1
      · rw [if_neg hk] at h1
        rcases mem_dictInsert _ _ _ h1 with h2 | h2
        · refine Or.inr ⟨?_, ?_, ?_⟩
          · rw [h2]
            exact List.mem_cons_self r t
          · rw [h2]
          · rw [h2]
            exact hk
        · exact Or.inl h2
    · exact Or.inr ⟨List.mem_cons_of_mem r h1.1, h1.2⟩

theorem mem_keys_foldl_mapStep (rows : List Record) (m : List (String × Record))
    (k : String) :
    k ∈ (rows.foldl mapStep m).map Prod.fst ↔
      k ∈ m.map Prod.fst ∨ (k ≠ "" ∧ ∃ r ∈ rows, generate_key r = k) := by
  induction rows generalizing m with
  | nil => simp
  | cons r t ih =>
    rw [List.foldl_cons, ih]
    unfold mapStep
    by_cases hk : generate_key r = ""
    · rw [if_pos hk]
      simp only [List.mem_cons]
      constructor
      · rintro (h | ⟨h1, r0, h2, h3⟩)
        · exact Or.inl h
        · exact Or.inr ⟨h1, r0, Or.inr h2, h3⟩
      · rintro (h | ⟨h1, r0, (rfl | h2), h3⟩)
        · exact Or.inl h
        · exact absurd (h3 ▸ hk) h1
        · exact Or.inr ⟨h1, r0, h2, h3⟩
    · rw [if_neg hk, mem_keys_dictInsert]
      simp only [List.mem_cons]
      constructor
      · rintro ((h | rfl) | ⟨h1, r0, h2, h3⟩)
        · exact Or.inl h
        · exact Or.inr ⟨hk, r, Or.inl rfl, rfl⟩
        · exact Or.inr ⟨h1, r0, Or.inr h2, h3⟩
      · rintro (h | ⟨h1, r0, (rfl | h2), h3⟩)
        · exact Or.inl (Or.inl h)
        · exact Or.inl (Or.inr h3.symm)
        · exact Or.inr ⟨h1, r0, h2, h3⟩

theorem nodup_keys_foldl_mapStep (rows : List Record) (m : List (String × Record))
    (h : (m.map Prod.fst).Nodup) : ((rows.foldl mapStep m).map Prod.fst).Nodup := by
  induction rows generalizing m with
  | nil => exact h
  | cons r t ih =>
    rw [List.foldl_cons]
    apply ih
    unfold mapStep
    by_cases hk : generate_key r = ""
    · rw [if_pos hk]
      exact h
    · rw [if_neg hk]
      by_cases ha : m.any (fun p => p.1 = generate_key r)
      · rw [keys_dictInsert_of_mem _ _ _ ha]
        exact h
      · rw [keys_dictInsert_of_not_mem _ _ _ ha]
        refine List.Nodup.append h (List.nodup_singleton _) ?_
        intro a ha1 ha2
        rw [List.mem_singleton] at ha2
        subst ha2
        exact ha ((any_key_iff m (generate_key r)).mpr ha1)

theorem create_data_map_keys_nodup (rows : List Record) :
    ((create_data_map rows).map Prod.fst).Nodup :=
  nodup_keys_foldl_mapStep rows [] (by simp)

theorem mem_keys_create_data_map (rows : List Record) (k : String) :
    k ∈ (create_data_map rows).map Prod.fst ↔
      k ≠ "" ∧ ∃ r ∈ rows, generate_key r = k := by
  rw [create_data_map, mem_keys_foldl_mapStep]
  simp

theorem mem_create_data_map {rows : List Record} {e : String × Record}
    (he : e ∈ create_data_map rows) :
    e.2 ∈ rows ∧ generate_key e.2 = e.1 ∧ e.1 ≠ "" := by
  rcases @mem_foldl_mapStep rows [] e he with h | h
  · exact absurd h (List.not_mem_nil e)
  · exact h

theorem mapGet_isSome_iff (m : List (String × Record)) (k : String) :
    (mapGet m k).isSome = true ↔ k ∈ m.map Prod.fst := by
  unfold mapGet
  rcases hf : m.find? (fun p => p.1 = k) with _ | p
  · simp only [hf, Option.map_none', Option.isSome_none, Bool.false_eq_true, false_iff]
    rw [List.find?_eq_none] at hf
    simp only [List.mem_map, not_exists]
    rintro p hcon
    exact hf p hcon.1 (by simp [hcon.2])
  · simp only [hf, Option.map_some', Option.isSome_some, true_iff]
    have hp1 : p.1 = k := by simpa using List.find?_some hf
    exact List.mem_map.mpr ⟨p, List.mem_of_find?_eq_some hf, hp1⟩

theorem mapGet_eq_some_mem {m : List (String × Record)} {k : String} {r : Record}
    (h : mapGet m k = some r) : (k, r) ∈ m := by
  unfold mapGet at h
  rcases hf : m.find? (fun p => p.1 = k) with _ | p
  · rw [hf] at h
    exact absurd h (by simp)
  · rw [hf] at h
    have hp1 : p.1 = k := by simpa using List.find?_some hf
    have hp2 : p.2 = r := by simpa using h
    have : (k, r) = p := by
      rw [← hp1, ← hp2]
    rw [this]
    exact List.mem_of_find?_eq_some hf

theorem mapGet_foldl_mapStep (rows : List Record) (m : List (String × Record))
    (k : String) (hk : k ≠ "") :
    mapGet (rows.foldl mapStep m) k =
      if rows.filter (fun r => generate_key r = k) = [] then mapGet m k
      else (rows.filter (fun r => generate_key r = k)).getLast? := by
  induction rows generalizing m with
  | nil => simp
  | cons r t ih =>
    rw [List.foldl_cons, ih]
    by_cases hr : generate_key r = k
    · rw [List.filter_cons_of_pos (by simp [hr])]
      rw [if_neg (List.cons_ne_nil _ _)]
      by_cases ht : t.filter (fun r => generate_key r = k) = []
      · rw [if_pos ht, ht]
        unfold mapStep
        rw [if_neg (hr ▸ hk), hr, mapGet_dictInsert_self]
        rfl
      · rw [if_neg ht]
        obtain ⟨b, l, hbl⟩ := List.exists_cons_of_ne_nil ht
        rw [hbl, List.getLast?_cons_cons]
    · rw [List.filter_cons_of_neg (by simp [hr])]
      have hstep : mapGet (mapStep m r) k = mapGet m k := by
        unfold mapStep
        by_cases hk0 : generate_key r = ""
        · rw [if_pos hk0]
        · rw [if_neg hk0]
          exact mapGet_dictInsert_ne m r hr
      rw [hstep]

theorem create_data_map_last (rows : List Record) (k : String) (hk : k ≠ "")
    (hne : rows.filter (fun r => generate_key r = k) ≠ []) :
    mapGet (create_data_map rows) k =
      (rows.filter (fun r => generate_key r = k)).getLast? := by
  rw [create_data_map, mapGet_foldl_mapStep rows [] k hk, if_neg hne]

/-! ### `compare` lemmas -/

theorem bump_foldl (items : List ComparisonItem) (s : ComparisonSummary) :
    items.foldl (fun s i => bumpSummary s i.type) s =
      ⟨s.added + items.countP (fun i => i.type = .added),
       s.deleted + items.countP (fun i => i.type = .deleted),
       s.modified + items.countP (fun i => i.type = .modified),
       s.unchanged + items.countP (fun i => i.type = .unchanged)⟩ := by
  induction items generalizing s with
  | nil => simp
  | cons i t ih =>
    rw [List.foldl_cons, ih]
    cases h : i.type <;> simp [List.countP_cons, h, bumpSummary] <;> omega

theorem compare_foldl_eq (map1 map2 : List (String × Record)) (ks : List String)
    (acc : List ComparisonItem × ComparisonSummary) :
    ks.foldl (fun acc key =>
      match processKey map1 map2 key with
      | none => acc
      | some item => (acc.1 ++ [item], bumpSummary acc.2 item.type)) acc =
    (acc.1 ++ ks.filterMap (processKey map1 map2),
     (ks.filterMap (processKey map1 map2)).foldl
       (fun s i => bumpSummary s i.type) acc.2) := by
  induction ks generalizing acc with
  | nil => simp
  | cons k t ih =>
    rw [List.foldl_cons]
    rcases hpk : processKey map1 map2 k with _ | item
    · rw [ih]
      simp [List.filterMap_cons, hpk]
    · rw [ih]
      simp [List.filterMap_cons, hpk]

theorem compare_items_eq (d1 d2 : List Record) :
    (compare d1 d2).1 =
      (all_keys (create_data_map d1) (create_data_map d2)).filterMap
        (processKey (create_data_map d1) (create_data_map d2)) := by
  unfold compare
  rw [compare_foldl_eq]
  simp

theorem compare_summary_eq (d1 d2 : List Record) :
    (compare d1 d2).2 =
      ⟨(compare d1 d2).1.countP (fun i => i.type = .added),
       (compare d1 d2).1.countP (fun i => i.type = .deleted),
       (compare d1 d2).1.countP (fun i => i.type = .modified),
       (compare d1 d2).1.countP (fun i => i.type = .unchanged)⟩ := by
  rw [compare_items_eq]
  unfold compare
  rw [compare_foldl_eq, bump_foldl]
  simp

theorem processKey_some_key {m1 m2 : List (String × Record)} {k : String}
    {i : ComparisonItem} (h : processKey m1 m2 k = some i) : i.key = k := by
  simp only [processKey] at h
  split at h
  · exact absurd h (by simp)
  · cases h
    rfl

theorem mem_filterMap_key {m1 m2 : List (String × Record)} {ks : List String}
    {i : ComparisonItem} (h : i ∈ ks.filterMap (processKey m1 m2)) : i.key ∈ ks := by
  obtain ⟨k, hk, hpk⟩ := List.mem_filterMap.mp h
  rw [processKey_some_key hpk]
  exact hk

theorem filterMap_keys_sublist (m1 m2 : List (String × Record)) (ks : List String) :
    ((ks.filterMap (processKey m1 m2)).map (fun i => i.key)).Sublist ks := by
  induction ks with
  | nil => simp
  | cons k t ih =>
    rw [List.filterMap_cons]
    rcases hpk : processKey m1 m2 k with _ | i
    · exact ih.cons k
    · rw [List.map_cons, processKey_some_key hpk]
      exact ih.cons₂ k

theorem nodup_all_keys (m1 m2 : List (String × Record)) : (all_keys m1 m2).Nodup := by
  unfold all_keys
  exact ((List.perm_insertionSort _ _).nodup_iff).mpr (List.nodup_dedup _)

theorem sorted_le_all_keys (m1 m2 : List (String × Record)) :
    (all_keys m1 m2).Sorted (fun a b => a ≤ b) :=
  List.sorted_insertionSort _ _

theorem sorted_lt_all_keys (m1 m2 : List (String × Record)) :
    (all_keys m1 m2).Sorted (fun a b => a < b) :=
  (sorted_le_all_keys m1 m2).lt_of_le (nodup_all_keys m1 m2)

theorem mem_all_keys (m1 m2 : List (String × Record)) (k : String) :
    k ∈ all_keys m1 m2 ↔ k ∈ m1.map Prod.fst ∨ k ∈ m2.map Prod.fst := by
  unfold all_keys
  rw [(List.perm_insertionSort _ _).mem_iff, List.mem_dedup, List.mem_append]

theorem length_all_keys (m1 m2 : List (String × Record)) :
    (all_keys m1 m2).length = (m1.map Prod.fst ++ m2.map Prod.fst).toFinset.card := by
  unfold all_keys
  rw [(List.perm_insertionSort _ _).length_eq, List.card_toFinset]

theorem processKey_isSome (m1 m2 : List (String × Record)) (k : String)
    (h1 : ∀ e ∈ m1, e.2 ≠ ([] : Record)) (h2 : ∀ e ∈ m2, e.2 ≠ ([] : Record))
    (hk : k ∈ m1.map Prod.fst ∨ k ∈ m2.map Prod.fst) :
    (processKey m1 m2 k).isSome = true := by
  unfold processKey
  rcases hr1 : mapGet m1 k with _ | r1 <;> rcases hr2 : mapGet m2 k with _ | r2
  · rcases hk with hk | hk
    · have := (mapGet_isSome_iff m1 k).mpr hk
      rw [hr1] at this
      exact absurd this (by simp)
    · have := (mapGet_isSome_iff m2 k).mpr hk
      rw [hr2] at this
      exact absurd this (by simp)
  · have hne : r2 ≠ [] := h2 (k, r2) (mapGet_eq_some_mem hr2)
    simp [determine_item_type, pyTruthy, List.isEmpty_iff, hne]
  · have hne : r1 ≠ [] := h1 (k, r1) (mapGet_eq_some_mem hr1)
    simp [determine_item_type, pyTruthy, List.isEmpty_iff, hne]
  · have hne1 : r1 ≠ [] := h1 (k, r1) (mapGet_eq_some_mem hr1)
    have hne2 : r2 ≠ [] := h2 (k, r2) (mapGet_eq_some_mem hr2)
    simp [determine_item_type, pyTruthy, List.isEmpty_iff, hne1, hne2]

theorem filter_key_length_one (m1 m2 : List (String × Record)) (ks : List String) :
    ∀ (_ : ks.Nodup) (k : String), k ∈ ks → (processKey m1 m2 k).isSome = true →
      ((ks.filterMap (processKey m1 m2)).filter (fun i => i.key = k)).length = 1 := by
  induction ks with
  | nil =>
    intro _ k hk _
    exact absurd hk (List.not_mem_nil k)
  | cons a t ih =>
    intro hnd k hk hs
    rw [List.filterMap_cons]
    rcases List.mem_cons.mp hk with rfl | hkt
    · rcases hpk : processKey m1 m2 k with _ | i
      · rw [hpk] at hs
        exact absurd hs (by simp)
      · rw [List.filter_cons_of_pos (by simp [processKey_some_key hpk])]
        have hnil : (t.filterMap (processKey m1 m2)).filter (fun i => i.key = k) = [] := by
          rw [List.filter_eq_nil_iff]
          intro i hi
          have hkey := mem_filterMap_key hi
          simp only [decide_eq_true_eq]
          intro hik
          exact (List.nodup_cons.mp hnd).1 (hik ▸ hkey)
        simp [hnil]
    · have hak : a ≠ k := fun h => (List.nodup_cons.mp hnd).1 (h ▸ hkt)
      have ih1 := ih (List.nodup_cons.mp hnd).2 k hkt hs
      rcases hpk : processKey m1 m2 a with _ | i
      · exact ih1
      · rw [List.filter_cons_of_neg (by simp [processKey_some_key hpk, hak])]
        exact ih1

theorem length_filterMap_of_isSome {α β : Type _} (f : α → Option β) (l : List α)
    (h : ∀ a ∈ l, (f a).isSome = true) : (l.filterMap f).length = l.length := by
  induction l with
  | nil => rfl
  | cons a t ih =>
    rw [List.filterMap_cons]
    rcases hf : f a with _ | b
    · have := h a (List.mem_cons_self a t)
      rw [hf] at this
      exact absurd this (by simp)
    · simp [ih (fun x hx => h x (List.mem_cons_of_mem a hx))]

theorem countP_types_sum (l : List ComparisonItem) :
    l.countP (fun i => i.type = .added) + l.countP (fun i => i.type = .deleted) +
      l.countP (fun i => i.type = .modified) +
      l.countP (fun i => i.type = .unchanged) = l.length := by
  induction l with
  | nil => rfl
  | cons i t ih =>
    simp only [List.countP_cons, List.length_cons]
    cases h : i.type <;> simp only [h, decide_eq_true_eq] <;> simp <;> omega

/-! ### `parse_stock_value` lemmas -/

theorem not_digitdot_of_pySpace {c : Char} (h : isPySpace c = true) :
    (c.isDigit || c = '.') = false := by
  unfold isPySpace at h
  simp only [Bool.or_eq_true, decide_eq_true_eq] at h
  obtain ((((((h | h) | h) | h) | h) | h) | h) := h <;> subst h <;> decide

theorem filter_dropWhile {α : Type _} (p q : α → Bool) (l : List α)
    (h : ∀ a, q a = true → p a = false) :
    (l.dropWhile q).filter p = l.filter p := by
  induction l with
  | nil => rfl
  | cons a t ih =>
    by_cases hq : q a = true
    · rw [List.dropWhile_cons_of_pos hq, ih, List.filter_cons_of_neg (by simp [h a hq])]
    · rw [List.dropWhile_cons_of_neg hq]

theorem filter_digitdot_pyStrip (s : String) :
    (pyStrip s).data.filter (fun c => c.isDigit || c = '.') =
      s.data.filter (fun c => c.isDigit || c = '.') := by
  show ((((s.data.dropWhile isPySpace).reverse.dropWhile isPySpace).reverse).filter _) = _
  rw [List.filter_reverse,
    filter_dropWhile _ _ _ (fun a ha => not_digitdot_of_pySpace ha),
    List.filter_reverse,
    filter_dropWhile _ _ _ (fun a ha => not_digitdot_of_pySpace ha),
    List.reverse_reverse]

theorem pyStrip_empty_all_space {s : String} (h : pyStrip s = "") :
    ∀ c ∈ s.data, isPySpace c = true := by
  have hdata : ((s.data.dropWhile isPySpace).reverse.dropWhile isPySpace).reverse =
      ([] : List Char) := by
    have := congrArg String.data h
    simpa [pyStrip] using this
  rw [List.reverse_eq_nil_iff, List.dropWhile_eq_nil_iff] at hdata
  intro c hc
  rcases List.mem_append.mp
      ((List.takeWhile_append_dropWhile isPySpace s.data) ▸ hc) with h1 | h1
  · exact List.mem_takeWhile_imp h1
  · exact hdata c (List.mem_reverse.mpr h1)

/-- Re-deriving the numeric amount of a parse result from its display
half alone: the amount only depends on the trimmed display text. -/
def numericOfDisplay (d : String) : ℚ :=
  if d = "" then 0
  else if d = "●" then 0
  else
    let cleaned := d.data.filter (fun c => c.isDigit || c = '.')
    if cleaned.isEmpty then 0 else (pyFloatOfDigitDot cleaned).getD 0

theorem parse_snd_eq_pyStrip (s : String) :
    (parse_stock_value (some s)).2 = pyStrip s := by
  by_cases hs : s = ""
  · subst hs
    rfl
  · by_cases hsent : pyStrip s = "●"
    · simp only [parse_stock_value, if_neg hs, if_pos hsent]
      exact hsent.symm
    · simp only [parse_stock_value, if_neg hs, if_neg hsent]
      split
      · rfl
      · split <;> rfl

theorem parse_fst_eq_numericOfDisplay (v : Option String) :
    (parse_stock_value v).1 = numericOfDisplay (parse_stock_value v).2 := by
  rcases v with _ | s
  · simp [parse_stock_value, numericOfDisplay]
  · by_cases hs : s = ""
    · subst hs
      simp [parse_stock_value, numericOfDisplay]
    · by_cases hsent : pyStrip s = "●"
      · simp [parse_stock_value, hs, hsent, numericOfDisplay]
      · have hfil := filter_digitdot_pyStrip s
        by_cases hempty : pyStrip s = ""
        · have hall := pyStrip_empty_all_space hempty
          have hcl : s.data.filter (fun c => c.isDigit || c = '.') = [] := by
            rw [List.filter_eq_nil_iff]
            intro a ha
            simp [not_digitdot_of_pySpace (hall a ha)]
          simp [parse_stock_value, hs, hsent, hempty, numericOfDisplay, hcl]
        · by_cases hce : (s.data.filter (fun c => c.isDigit || c = '.')).isEmpty
          · simp [parse_stock_value, hs, hsent, hempty, numericOfDisplay, hfil, hce]
          · rcases hf : pyFloatOfDigitDot (s.data.filter (fun c => c.isDigit || c = '.'))
              with _ | q
            · simp [parse_stock_value, hs, hsent, hempty, numericOfDisplay, hfil, hce, hf]
            · simp [parse_stock_value, hs, hsent, hempty, numericOfDisplay, hfil, hce, hf]

theorem parse_numeric_congr {a b : Option String}
    (h : (parse_stock_value a).2 = (parse_stock_value b).2) :
    (parse_stock_value a).1 = (parse_stock_value b).1 := by
  rw [parse_fst_eq_numericOfDisplay, parse_fst_eq_numericOfDisplay, h]

/-! ### `processKey` branch lemmas -/

theorem processKey_both {m1 m2 : List (String × Record)} {k : String} {r1 r2 : Record}
    (h1 : mapGet m1 k = some r1) (h2 : mapGet m2 k = some r2)
    (hn1 : r1 ≠ []) (hn2 : r2 ≠ []) :
    processKey m1 m2 k = some
      ⟨if (parse_stock_value (getVal? r1 STOCK_COLUMN)).2 ≠
            (parse_stock_value (getVal? r2 STOCK_COLUMN)).2 then .modified else .unchanged,
       r2,
       (parse_stock_value (getVal? r1 STOCK_COLUMN)).1,
       (parse_stock_value (getVal? r2 STOCK_COLUMN)).1,
       (parse_stock_value (getVal? r1 STOCK_COLUMN)).2,
       (parse_stock_value (getVal? r2 STOCK_COLUMN)).2,
       (parse_stock_value (getVal? r2 STOCK_COLUMN)).1 -
         (parse_stock_value (getVal? r1 STOCK_COLUMN)).1,
       k⟩ := by
  simp [processKey, h1, h2, determine_item_type, pyTruthy, List.isEmpty_iff, hn1, hn2]

theorem processKey_only2 {m1 m2 : List (String × Record)} {k : String} {r2 : Record}
    (h1 : mapGet m1 k = none) (h2 : mapGet m2 k = some r2) (hn2 : r2 ≠ []) :
    processKey m1 m2 k = some
      ⟨.added, r2, 0,
       (parse_stock_value (getVal? r2 STOCK_COLUMN)).1,
       "",
       (parse_stock_value (getVal? r2 STOCK_COLUMN)).2,
       (parse_stock_value (getVal? r2 STOCK_COLUMN)).1 - 0,
       k⟩ := by
  simp [processKey, h1, h2, determine_item_type, pyTruthy, List.isEmpty_iff, hn2]

theorem processKey_only1 {m1 m2 : List (String × Record)} {k : String} {r1 : Record}
    (h1 : mapGet m1 k = some r1) (h2 : mapGet m2 k = none) (hn1 : r1 ≠ []) :
    processKey m1 m2 k = some
      ⟨.deleted, r1,
       (parse_stock_value (getVal? r1 STOCK_COLUMN)).1,
       0,
       (parse_stock_value (getVal? r1 STOCK_COLUMN)).2,
       "",
       0 - (parse_stock_value (getVal? r1 STOCK_COLUMN)).1,
       k⟩ := by
  simp [processKey, h1, h2, determine_item_type, pyTruthy, List.isEmpty_iff, hn1]

/-- Every produced item carries two parse results: each side's stock pair
is the parse of some cell value (an absent or falsy side yields the pair
of parsing an absent cell), and the delta is their difference. -/
theorem processKey_shape {m1 m2 : List (String × Record)} {k : String}
    {i : ComparisonItem} (h : processKey m1 m2 k = some i) :
    ∃ v1 v2 : Option String,
      i.stock1 = (parse_stock_value v1).1 ∧ i.stock1_display = (parse_stock_value v1).2 ∧
      i.stock2 = (parse_stock_value v2).1 ∧ i.stock2_display = (parse_stock_value v2).2 ∧
      i.stock_change = i.stock2 - i.stock1 := by
  simp only [processKey] at h
  have e1 : (if pyTruthy (mapGet m1 k) = true then
        parse_stock_value (getVal? ((mapGet m1 k).getD []) STOCK_COLUMN)
      else ((0 : ℚ), "")) =
      parse_stock_value (if pyTruthy (mapGet m1 k) = true then
        getVal? ((mapGet m1 k).getD []) STOCK_COLUMN else none) := by
    by_cases hc : pyTruthy (mapGet m1 k) = true
    · rw [if_pos hc, if_pos hc]
    · rw [if_neg hc, if_neg hc]
      rfl
  have e2 : (if pyTruthy (mapGet m2 k) = true then
        parse_stock_value (getVal? ((mapGet m2 k).getD []) STOCK_COLUMN)
      else ((0 : ℚ), "")) =
      parse_stock_value (if pyTruthy (mapGet m2 k) = true then
        getVal? ((mapGet m2 k).getD []) STOCK_COLUMN else none) := by
    by_cases hc : pyTruthy (mapGet m2 k) = true
    · rw [if_pos hc, if_pos hc]
    · rw [if_neg hc, if_neg hc]
      rfl
  rw [e1, e2] at h
  split at h
  · exact absurd h (by simp)
  · cases h
    exact ⟨_, _, rfl, rfl, rfl, rfl, rfl⟩

theorem parse_fst_nonneg (v : Option String) : 0 ≤ (parse_stock_value v).1 := by
  rcases v with _ | s
  · exact le_refl 0
  · by_cases hs : s = ""
    · subst hs
      exact le_refl 0
    · by_cases hsent : pyStrip s = "●"
      · simp [parse_stock_value, hs, hsent]
      · simp only [parse_stock_value, if_neg hs, if_neg hsent]
        by_cases hce : (s.data.filter (fun c => c.isDigit || c = '.')).isEmpty
        · simp [hce]
        · rcases hf : pyFloatOfDigitDot (s.data.filter (fun c => c.isDigit || c = '.'))
            with _ | q
          · simp [hce, hf]
          · simp only [hce, hf, Bool.false_eq_true, if_false]
            unfold pyFloatOfDigitDot at hf
            split at hf
            · cases hf
              positivity
            · exact absurd hf (by simp)

/-! ### Validation helper lemmas -/

theorem validate_ok_not_empty {d1 d2 : Table} (h : validate_data d1 d2 = .ok) :
    d1.isEmpty = false ∧ d2.isEmpty = false := by
  unfold validate_data at h
  by_cases he : (d1.isEmpty || d2.isEmpty) = true
  · rw [if_pos he] at h
    exact absurd h (by simp)
  · simpa [Bool.or_eq_true] using he

theorem rows_ne_nil_of_wf {t : Table} (hw : t.wf) (hc : t.cols ≠ []) :
    ∀ r ∈ t.rows, r ≠ ([] : Record) := by
  intro r hr hnil
  apply hc
  rw [← hw r hr, hnil]
  rfl

theorem map_records_ne_nil {rows : List Record} (h : ∀ r ∈ rows, r ≠ ([] : Record)) :
    ∀ e ∈ create_data_map rows, e.2 ≠ ([] : Record) :=
  fun e he => h e.2 (mem_create_data_map he).1

/-! ### Formatting helper lemmas -/

theorem fmtF0_nonneg {q : ℚ} (h : 0 ≤ q) : fmtF0 q = toString (roundHalfEven q) := by
  unfold fmtF0
  rw [if_neg]
  rintro ⟨-, hq⟩
  exact absurd hq (not_lt.mpr h)

theorem fmtPlusF0_zero : fmtPlusF0 0 = "+0" := by with_unfolding_all decide

theorem determine_unchanged {row1 row2 : Option Record} {s1 s2 : String}
    {t : ItemType} {d : Record}
    (h : determine_item_type row1 row2 s1 s2 = some (t, d))
    (hu : t = .unchanged) : s1 = s2 := by
  unfold determine_item_type at h
  by_cases hA : (pyTruthy row1 && pyTruthy row2) = true
  · rw [if_pos hA] at h
    by_cases hne : s1 = s2
    · exact hne
    · rw [if_pos hne] at h
      simp only [Option.some.injEq, Prod.mk.injEq] at h
      obtain ⟨ht, -⟩ := h
      rw [← ht] at hu
      exact absurd hu (by simp)
  · rw [if_neg hA] at h
    by_cases hB : (pyTruthy row2 && !pyTruthy row1) = true
    · rw [if_pos hB] at h
      simp only [Option.some.injEq, Prod.mk.injEq] at h
      obtain ⟨ht, -⟩ := h
      rw [← ht] at hu
      exact absurd hu (by simp)
    · rw [if_neg hB] at h
      by_cases hC : (pyTruthy row1 && !pyTruthy row2) = true
      · rw [if_pos hC] at h
        simp only [Option.some.injEq, Prod.mk.injEq] at h
        obtain ⟨ht, -⟩ := h
        rw [← ht] at hu
        exact absurd hu (by simp)
      · rw [if_neg hC] at h
        exact absurd h (by simp)

theorem processKey_unchanged_displays {m1 m2 : List (String × Record)} {k : String}
    {i : ComparisonItem} (h : processKey m1 m2 k = some i)
    (hu : i.type = .unchanged) : i.stock1_display = i.stock2_display := by
  simp only [processKey] at h
  split at h
  · exact absurd h (by simp)
  · rename_i t d heq
    cases h
    exact determine_unchanged heq hu

/-! ### Concrete data used by the claim witnesses -/

/-- A row whose every identifying column is blank. -/
def blankRow : Record :=
  [("品番", ""), ("サイズ枠", ""), ("カラーコード", ""), ("サイズ名", ""),
   ("ＪＡＮコード", ""), ("在庫数", "5")]

/-- The column list of the witness tables. -/
def wcols : List String :=
  ["品番", "サイズ枠", "カラーコード", "サイズ名", "ＪＡＮコード", "在庫数"]

/-- Witness row with key X1|S|01|M|111 and stock 10. -/
def wrowA : Record :=
  [("品番", "X1"), ("サイズ枠", "S"), ("カラーコード", "01"), ("サイズ名", "M"),
   ("ＪＡＮコード", "111"), ("在庫数", "10")]

/-- Same key as `wrowA`, stock 15. -/
def wrowB : Record :=
  [("品番", "X1"), ("サイズ枠", "S"), ("カラーコード", "01"), ("サイズ名", "M"),
   ("ＪＡＮコード", "111"), ("在庫数", "15")]

/-- A row with the distinct key X2|S|01|M|222. -/
def wrowC : Record :=
  [("品番", "X2"), ("サイズ枠", "S"), ("カラーコード", "01"), ("サイズ名", "M"),
   ("ＪＡＮコード", "222"), ("在庫数", "7")]

/-! ### The claims -/

/-- C4: the stock-value parser satisfies the five specified input/output
pairs: `""` and a missing value parse to `(0, "")`, the sentinel is kept
verbatim with amount 0, `"12個"` parses to `(12, "12個")`, and `"abc"`
parses to `(0, "abc")`. -/
theorem C4_parser_cases :
    parse_stock_value (some "") = (0, "") ∧
    parse_stock_value (some "●") = (0, "●") ∧
    parse_stock_value (some "12個") = (12, "12個") ∧
    parse_stock_value (some "abc") = (0, "abc") ∧
    parse_stock_value none = (0, "") := by
  refine ⟨rfl, by decide, by with_unfolding_all decide, by decide, rfl⟩

/-- C10: an input whose trimmed form is the sentinel `●` parses to
`(0, "●")`: trimming happens before the sentinel comparison, and the
surrounding whitespace does not survive into the display text. -/
theorem C10_trimmed_sentinel (s : String) (h : pyStrip s = "●") :
    parse_stock_value (some s) = (0, "●") := by
  have hs : s ≠ "" := by
    intro h0
    rw [h0] at h
    exact absurd h (by decide)
  simp only [parse_stock_value, if_neg hs, h]
  simp

theorem C10_witness :
    pyStrip " ● " = "●" ∧ parse_stock_value (some " ● ") = (0, "●") :=
  ⟨by decide, C10_trimmed_sentinel " ● " (by decide)⟩

/-- C5: the parser is total (it is a Lean function, so it can neither
raise nor diverge), its display text is always the trimmed original text,
and every parse failure (empty digit extraction or an invalid extracted
literal) degrades the numeric amount to 0. -/
theorem C5_never_raises (v : Option String) :
    (parse_stock_value v).2 = pyStrip (v.getD "") ∧
    (((v.getD "").data.filter (fun c => c.isDigit || c = '.') = [] ∨
      pyFloatOfDigitDot ((v.getD "").data.filter (fun c => c.isDigit || c = '.')) = none) →
      (parse_stock_value v).1 = 0) := by
  rcases v with _ | s
  · exact ⟨rfl, fun _ => rfl⟩
  · refine ⟨parse_snd_eq_pyStrip s, ?_⟩
    intro hfail
    by_cases hs : s = ""
    · subst hs
      rfl
    · by_cases hsent : pyStrip s = "●"
      · simp [parse_stock_value, hs, hsent]
      · simp only [parse_stock_value, if_neg hs, if_neg hsent]
        simp only [Option.getD_some] at hfail
        rcases hfail with hfail | hfail
        · simp [hfail]
        · by_cases hce : (s.data.filter (fun c => c.isDigit || c = '.')).isEmpty
          · simp [hce]
          · simp [hce, hfail]

theorem C5_witness :
    ("abc".data.filter (fun c => c.isDigit || c = '.') = [] ∨
      pyFloatOfDigitDot ("abc".data.filter (fun c => c.isDigit || c = '.')) = none) ∧
    (parse_stock_value (some "abc")).1 = 0 :=
  ⟨Or.inl (by decide), (C5_never_raises (some "abc")).2 (Or.inl (by decide))⟩

/-- C1 (counterexample): a record whose every identifying value is blank
does NOT get an empty composite key — joining five blank values with the
pipe separator gives `"||||"`, which is non-empty, so the record is kept
in the side map and produces a comparison record, contradicting the
claimed exclusion. -/
theorem C1_counterexample :
    (∀ c ∈ KEY_COLUMNS, pyStrip (getValD blankRow c) = "") ∧
    generate_key blankRow ≠ "" ∧
    create_data_map [blankRow] ≠ [] ∧
    (compare [blankRow] [blankRow]).1.length = 1 := by
  refine ⟨by decide, by decide, by decide, by decide⟩

/-- C1 (amended): a record whose every identifying-column value is empty
after trimming produces the composite key `"||||"` (five empty fields
joined by four pipes), which is non-empty; such a record is therefore NOT
excluded: it is bound in its side's key-to-record map under `"||||"`.
(The empty-key filter of `_create_data_map` can only ever drop a key that
is the empty string, which never arises for the five configured
identifying columns.) -/
theorem C1_all_blank_key (r : Record)
    (h : ∀ c ∈ KEY_COLUMNS, pyStrip (getValD r c) = "") :
    generate_key r = "||||" ∧ create_data_map [r] = [("||||", r)] := by
  have h1 := h "品番" (by decide)
  have h2 := h "サイズ枠" (by decide)
  have h3 := h "カラーコード" (by decide)
  have h4 := h "サイズ名" (by decide)
  have h5 := h "ＪＡＮコード" (by decide)
  have hk : generate_key r = "||||" := by
    simp [generate_key, KEY_COLUMNS, h1, h2, h3, h4, h5]
    decide
  refine ⟨hk, ?_⟩
  simp [create_data_map, mapStep, hk, dictInsert]

theorem C1_witness :
    generate_key blankRow = "||||" ∧
    create_data_map [blankRow] = [("||||", blankRow)] :=
  C1_all_blank_key blankRow (by decide)

/-- C7: when rows of one table share a composite key (non-empty), the
side map has exactly one entry for that key, bound to the last such row
in iteration order; the collapsing is silent (the map construction is a
total function, there is no error channel). -/
theorem C7_last_write_wins (rows : List Record) (k : String) (hk : k ≠ "")
    (hne : rows.filter (fun r => generate_key r = k) ≠ []) :
    ((create_data_map rows).map Prod.fst).count k = 1 ∧
    mapGet (create_data_map rows) k =
      (rows.filter (fun r => generate_key r = k)).getLast? := by
  constructor
  · have hmem : k ∈ (create_data_map rows).map Prod.fst := by
      rw [mem_keys_create_data_map]
      obtain ⟨r, hr⟩ := List.exists_mem_of_ne_nil _ hne
      have hr2 := List.mem_filter.mp hr
      exact ⟨hk, r, hr2.1, by simpa using hr2.2⟩
    exact List.count_eq_one_of_mem (create_data_map_keys_nodup rows) hmem
  · exact create_data_map_last rows k hk hne

theorem C7_witness :
    ((create_data_map [wrowA, wrowB]).map Prod.fst).count "X1|S|01|M|111" = 1 ∧
    mapGet (create_data_map [wrowA, wrowB]) "X1|S|01|M|111" =
      ([wrowA, wrowB].filter
        (fun r => generate_key r = "X1|S|01|M|111")).getLast? :=
  C7_last_write_wins [wrowA, wrowB] "X1|S|01|M|111" (by decide) (by decide)

/-- C9: the produced sequence of comparison records is ordered by strictly
ascending lexicographic order of the composite key strings, and the
comparison is deterministic (it is a pure function of its inputs, so two
calls on identical inputs are definitionally identical). -/
theorem C9_sorted_deterministic (d1 d2 : List Record) :
    ((compare d1 d2).1.map (fun i => i.key)).Sorted (fun a b => a < b) ∧
    compare d1 d2 = compare d1 d2 := by
  refine ⟨?_, rfl⟩
  rw [compare_items_eq]
  exact List.Pairwise.sublist (filterMap_keys_sublist _ _ _) (sorted_lt_all_keys _ _)

/-- C8: validation checks its four rules in order and reports the first
violated one with a distinct outcome — empty table, column-set mismatch,
missing identifying columns (listing which), missing stock column — and
succeeds exactly when none is violated; in particular two non-empty
tables with disjoint column sets report the schema mismatch. -/
theorem C8_validation_order (d1 d2 : Table) :
    (validate_data d1 d2 = .emptyTable ↔ (d1.isEmpty || d2.isEmpty) = true) ∧
    (validate_data d1 d2 = .schemaMismatch ↔
      ((d1.isEmpty || d2.isEmpty) = false ∧ d1.cols.toFinset ≠ d2.cols.toFinset)) ∧
    (∀ l, validate_data d1 d2 = .missingKeyColumns l ↔
      ((d1.isEmpty || d2.isEmpty) = false ∧ d1.cols.toFinset = d2.cols.toFinset ∧
        l = KEY_COLUMNS.filter (fun key => key ∉ d1.cols) ∧ l ≠ [])) ∧
    (validate_data d1 d2 = .missingStockColumn ↔
      ((d1.isEmpty || d2.isEmpty) = false ∧ d1.cols.toFinset = d2.cols.toFinset ∧
        KEY_COLUMNS.filter (fun key => key ∉ d1.cols) = [] ∧ STOCK_COLUMN ∉ d1.cols)) ∧
    (validate_data d1 d2 = .ok ↔
      ((d1.isEmpty || d2.isEmpty) = false ∧ d1.cols.toFinset = d2.cols.toFinset ∧
        KEY_COLUMNS.filter (fun key => key ∉ d1.cols) = [] ∧ STOCK_COLUMN ∈ d1.cols)) ∧
    (d1.isEmpty = false → d2.isEmpty = false →
      (∀ c ∈ d1.cols, c ∉ d2.cols) → validate_data d1 d2 = .schemaMismatch) := by
  by_cases hA : (d1.isEmpty || d2.isEmpty) = true
  · have hv : validate_data d1 d2 = .emptyTable := by
      simp [validate_data, hA]
    refine ⟨⟨fun _ => hA, fun _ => hv⟩, ?_, fun l => ?_, ?_, ?_, ?_⟩
    · rw [hv]
      constructor
      · intro hcon
        exact absurd hcon (by simp)
      · rintro ⟨hfalse, -⟩
        rw [hA] at hfalse
        exact absurd hfalse (by simp)
    · rw [hv]
      constructor
      · intro hcon
        exact absurd hcon (by simp)
      · rintro ⟨hfalse, -⟩
        rw [hA] at hfalse
        exact absurd hfalse (by simp)
    · rw [hv]
      constructor
      · intro hcon
        exact absurd hcon (by simp)
      · rintro ⟨hfalse, -⟩
        rw [hA] at hfalse
        exact absurd hfalse (by simp)
    · rw [hv]
      constructor
      · intro hcon
        exact absurd hcon (by simp)
      · rintro ⟨hfalse, -⟩
        rw [hA] at hfalse
        exact absurd hfalse (by simp)
    · intro h1 h2 _
      rw [h1, h2] at hA
      exact absurd hA (by simp)
  · have hA2 : (d1.isEmpty || d2.isEmpty) = false := by
      simpa using hA
    by_cases hB : d1.cols.toFinset = d2.cols.toFinset
    · have hcontra : ∀ c ∈ d1.cols, c ∈ d2.cols := by
        intro c hc
        exact List.mem_toFinset.mp (hB ▸ List.mem_toFinset.mpr hc)
      have hdisj : d1.isEmpty = false → d2.isEmpty = false →
          (∀ c ∈ d1.cols, c ∉ d2.cols) → validate_data d1 d2 = .schemaMismatch := by
        intro h1 _ hd
        have hc1 : d1.cols ≠ [] := by
          unfold Table.isEmpty at h1
          rw [Bool.or_eq_false_iff] at h1
          intro hcon
          rw [hcon] at h1
          exact absurd h1.2 (by simp)
        obtain ⟨c, hc⟩ := List.exists_mem_of_ne_nil _ hc1
        exact absurd (hcontra c hc) (hd c hc)
      by_cases hC : KEY_COLUMNS.filter (fun key => key ∉ d1.cols) = []
      · by_cases hD : STOCK_COLUMN ∈ d1.cols
        · have hv : validate_data d1 d2 = .ok := by
            simp only [validate_data]
            rw [if_neg hA, if_neg (not_not.mpr hB), if_neg (not_not.mpr hC),
              if_neg (not_not.mpr hD)]
          refine ⟨?_, ?_, fun l => ?_, ?_, ?_, hdisj⟩
          · rw [hv]
            exact ⟨fun hcon => absurd hcon (by simp), fun htrue => absurd htrue hA⟩
          · rw [hv]
            refine ⟨fun hcon => absurd hcon (by simp), ?_⟩
            rintro ⟨-, hBne⟩
            exact absurd hB hBne
          · rw [hv]
            refine ⟨fun hcon => absurd hcon (by simp), ?_⟩
            rintro ⟨-, -, rfl, hlne⟩
            exact absurd hC hlne
          · rw [hv]
            refine ⟨fun hcon => absurd hcon (by simp), ?_⟩
            rintro ⟨-, -, -, hDnot⟩
            exact absurd hD hDnot
          · rw [hv]
            exact ⟨fun _ => ⟨hA2, hB, hC, hD⟩, fun _ => rfl⟩
        · have hv : validate_data d1 d2 = .missingStockColumn := by
            simp only [validate_data]
            rw [if_neg hA, if_neg (not_not.mpr hB), if_neg (not_not.mpr hC), if_pos hD]
          refine ⟨?_, ?_, fun l => ?_, ?_, ?_, hdisj⟩
          · rw [hv]
            exact ⟨fun hcon => absurd hcon (by simp), fun htrue => absurd htrue hA⟩
          · rw [hv]
            refine ⟨fun hcon => absurd hcon (by simp), ?_⟩
            rintro ⟨-, hBne⟩
            exact absurd hB hBne
          · rw [hv]
            refine ⟨fun hcon => absurd hcon (by simp), ?_⟩
            rintro ⟨-, -, rfl, hlne⟩
            exact absurd hC hlne
          · rw [hv]
            exact ⟨fun _ => ⟨hA2, hB, hC, hD⟩, fun _ => rfl⟩
          · rw [hv]
            refine ⟨fun hcon => absurd hcon (by simp), ?_⟩
            rintro ⟨-, -, -, hDin⟩
            exact absurd hDin hD
      · have hv : validate_data d1 d2 = .missingKeyColumns
            (KEY_COLUMNS.filter (fun key => key ∉ d1.cols)) := by
          simp only [validate_data]
          rw [if_neg hA, if_neg (not_not.mpr hB), if_pos hC]
        refine ⟨?_, ?_, fun l => ?_, ?_, ?_, hdisj⟩
        · rw [hv]
          exact ⟨fun hcon => absurd hcon (by simp), fun htrue => absurd htrue hA⟩
        · rw [hv]
          refine ⟨fun hcon => absurd hcon (by simp), ?_⟩
          rintro ⟨-, hBne⟩
          exact absurd hB hBne
        · rw [hv]
          constructor
          · intro hl
            have hleq : l = KEY_COLUMNS.filter (fun key => key ∉ d1.cols) := by
              cases hl
              rfl
            exact ⟨hA2, hB, hleq, hleq ▸ hC⟩
          · rintro ⟨-, -, rfl, -⟩
            rfl
        · rw [hv]
          refine ⟨fun hcon => absurd hcon (by simp), ?_⟩
          rintro ⟨-, -, hCeq, -⟩
          exact absurd hCeq hC
        · rw [hv]
          refine ⟨fun hcon => absurd hcon (by simp), ?_⟩
          rintro ⟨-, -, hCeq, -⟩
          exact absurd hCeq hC
    · have hv : validate_data d1 d2 = .schemaMismatch := by
        simp only [validate_data]
        rw [if_neg hA, if_pos hB]
      refine ⟨?_, ?_, fun l => ?_, ?_, ?_, fun _ _ _ => hv⟩
      · rw [hv]
        exact ⟨fun hcon => absurd hcon (by simp), fun htrue => absurd htrue hA⟩
      · rw [hv]
        exact ⟨fun _ => ⟨hA2, hB⟩, fun _ => rfl⟩
      · rw [hv]
        refine ⟨fun hcon => absurd hcon (by simp), ?_⟩
        rintro ⟨-, hBeq, -, -⟩
        exact absurd hBeq hB
      · rw [hv]
        refine ⟨fun hcon => absurd hcon (by simp), ?_⟩
        rintro ⟨-, hBeq, -, -⟩
        exact absurd hBeq hB
      · rw [hv]
        refine ⟨fun hcon => absurd hcon (by simp), ?_⟩
        rintro ⟨-, hBeq, -, -⟩
        exact absurd hBeq hB

/-- Witness tables for the validation claim: non-empty, disjoint columns. -/
def wtA : Table := ⟨["a"], [[("a", "1")]]⟩

/-- Second witness table with a disjoint column set. -/
def wtB : Table := ⟨["b"], [[("b", "2")]]⟩

theorem C8_witness : validate_data wtA wtB = .schemaMismatch :=
  (C8_validation_order wtA wtB).2.2.2.2.2 (by decide) (by decide) (by decide)

/-- C2: for a key of the unioned key set (with every input row a
non-empty mapping, as every pandas row of a validated table is): present
in both side maps, the comparison record is classified `modified` exactly
when the two sides' stock display texts differ (plain string inequality,
the sentinel participating as ordinary text) and `unchanged` otherwise,
with its data taken from side B; present only in B it is `added` with
data from B; present only in A it is `deleted` with data from A. -/
theorem C2_classification (d1 d2 : List Record)
    (hw1 : ∀ r ∈ d1, r ≠ ([] : Record)) (hw2 : ∀ r ∈ d2, r ≠ ([] : Record))
    (k : String) :
    (k ∈ (create_data_map d1).map Prod.fst → k ∈ (create_data_map d2).map Prod.fst →
      ∃ i ∈ (compare d1 d2).1, i.key = k ∧
        some i.data = mapGet (create_data_map d2) k ∧
        (i.type = .modified ↔ i.stock1_display ≠ i.stock2_display) ∧
        (i.type = .modified ∨ i.type = .unchanged)) ∧
    (k ∉ (create_data_map d1).map Prod.fst → k ∈ (create_data_map d2).map Prod.fst →
      ∃ i ∈ (compare d1 d2).1, i.key = k ∧
        some i.data = mapGet (create_data_map d2) k ∧ i.type = .added) ∧
    (k ∈ (create_data_map d1).map Prod.fst → k ∉ (create_data_map d2).map Prod.fst →
      ∃ i ∈ (compare d1 d2).1, i.key = k ∧
        some i.data = mapGet (create_data_map d1) k ∧ i.type = .deleted) := by
  refine ⟨?_, ?_, ?_⟩
  · intro hk1 hk2
    obtain ⟨r1, hr1⟩ := Option.isSome_iff_exists.mp ((mapGet_isSome_iff _ k).mpr hk1)
    obtain ⟨r2, hr2⟩ := Option.isSome_iff_exists.mp ((mapGet_isSome_iff _ k).mpr hk2)
    have hn1 : r1 ≠ [] := map_records_ne_nil hw1 (k, r1) (mapGet_eq_some_mem hr1)
    have hn2 : r2 ≠ [] := map_records_ne_nil hw2 (k, r2) (mapGet_eq_some_mem hr2)
    have hpk := processKey_both hr1 hr2 hn1 hn2
    refine ⟨⟨if (parse_stock_value (getVal? r1 STOCK_COLUMN)).2 ≠
          (parse_stock_value (getVal? r2 STOCK_COLUMN)).2 then .modified else .unchanged,
        r2,
        (parse_stock_value (getVal? r1 STOCK_COLUMN)).1,
        (parse_stock_value (getVal? r2 STOCK_COLUMN)).1,
        (parse_stock_value (getVal? r1 STOCK_COLUMN)).2,
        (parse_stock_value (getVal? r2 STOCK_COLUMN)).2,
        (parse_stock_value (getVal? r2 STOCK_COLUMN)).1 -
          (parse_stock_value (getVal? r1 STOCK_COLUMN)).1,
        k⟩, ?_, rfl, hr2.symm, ?_, ?_⟩
    · rw [compare_items_eq]
      exact List.mem_filterMap.mpr ⟨k, (mem_all_keys _ _ k).mpr (Or.inl hk1), hpk⟩
    · by_cases hc : (parse_stock_value (getVal? r1 STOCK_COLUMN)).2 ≠
        (parse_stock_value (getVal? r2 STOCK_COLUMN)).2
      · simp [hc]
      · simp [hc]
    · by_cases hc : (parse_stock_value (getVal? r1 STOCK_COLUMN)).2 ≠
        (parse_stock_value (getVal? r2 STOCK_COLUMN)).2
      · simp [hc]
      · simp [hc]
  · intro hk1 hk2
    have hr1 : mapGet (create_data_map d1) k = none := by
      rcases ho : mapGet (create_data_map d1) k with _ | r
      · rfl
      · exact absurd ((mapGet_isSome_iff _ k).mp (by simp [ho])) hk1
    obtain ⟨r2, hr2⟩ := Option.isSome_iff_exists.mp ((mapGet_isSome_iff _ k).mpr hk2)
    have hn2 : r2 ≠ [] := map_records_ne_nil hw2 (k, r2) (mapGet_eq_some_mem hr2)
    have hpk := processKey_only2 hr1 hr2 hn2
    refine ⟨⟨.added, r2, 0,
        (parse_stock_value (getVal? r2 STOCK_COLUMN)).1,
        "",
        (parse_stock_value (getVal? r2 STOCK_COLUMN)).2,
        (parse_stock_value (getVal? r2 STOCK_COLUMN)).1 - 0,
        k⟩, ?_, rfl, hr2.symm, rfl⟩
    rw [compare_items_eq]
    exact List.mem_filterMap.mpr ⟨k, (mem_all_keys _ _ k).mpr (Or.inr hk2), hpk⟩
  · intro hk1 hk2
    have hr2 : mapGet (create_data_map d2) k = none := by
      rcases ho : mapGet (create_data_map d2) k with _ | r
      · rfl
      · exact absurd ((mapGet_isSome_iff _ k).mp (by simp [ho])) hk2
    obtain ⟨r1, hr1⟩ := Option.isSome_iff_exists.mp ((mapGet_isSome_iff _ k).mpr hk1)
    have hn1 : r1 ≠ [] := map_records_ne_nil hw1 (k, r1) (mapGet_eq_some_mem hr1)
    have hpk := processKey_only1 hr1 hr2 hn1
    refine ⟨⟨.deleted, r1,
        (parse_stock_value (getVal? r1 STOCK_COLUMN)).1,
        0,
        (parse_stock_value (getVal? r1 STOCK_COLUMN)).2,
        "",
        0 - (parse_stock_value (getVal? r1 STOCK_COLUMN)).1,
        k⟩, ?_, rfl, hr1.symm, rfl⟩
    rw [compare_items_eq]
    exact List.mem_filterMap.mpr ⟨k, (mem_all_keys _ _ k).mpr (Or.inl hk1), hpk⟩

theorem C2_witness :
    ∃ i ∈ (compare [wrowA] [wrowB]).1, i.key = "X1|S|01|M|111" ∧
      some i.data = mapGet (create_data_map [wrowB]) "X1|S|01|M|111" ∧
      (i.type = .modified ↔ i.stock1_display ≠ i.stock2_display) ∧
      (i.type = .modified ∨ i.type = .unchanged) :=
  (C2_classification [wrowA] [wrowB] (by decide) (by decide) "X1|S|01|M|111").1
    (by decide) (by decide)

/-- C3: on a valid pair of tables (well-formed rows, validation passes),
the four summary counters sum to the derived total, which equals the
number of produced comparison records, which equals the cardinality of
the union of the non-empty composite keys of both sides; every key of
that union yields exactly one record; and all counters are non-negative
(they live in the natural numbers). -/
theorem C3_count_conservation (d1 d2 : Table) (hw1 : d1.wf) (hw2 : d2.wf)
    (hv : validate_data d1 d2 = .ok) :
    (compare d1.rows d2.rows).2.added + (compare d1.rows d2.rows).2.deleted +
        (compare d1.rows d2.rows).2.modified + (compare d1.rows d2.rows).2.unchanged =
      (compare d1.rows d2.rows).2.total_items ∧
    (compare d1.rows d2.rows).2.total_items = (compare d1.rows d2.rows).1.length ∧
    (compare d1.rows d2.rows).1.length =
      (((d1.rows.map generate_key).filter (fun k => k ≠ "")) ++
        ((d2.rows.map generate_key).filter (fun k => k ≠ ""))).toFinset.card ∧
    (∀ k ∈ (((d1.rows.map generate_key).filter (fun k => k ≠ "")) ++
        ((d2.rows.map generate_key).filter (fun k => k ≠ ""))).toFinset,
      ((compare d1.rows d2.rows).1.filter (fun i => i.key = k)).length = 1) ∧
    0 ≤ (compare d1.rows d2.rows).2.added ∧
    0 ≤ (compare d1.rows d2.rows).2.deleted ∧
    0 ≤ (compare d1.rows d2.rows).2.modified ∧
    0 ≤ (compare d1.rows d2.rows).2.unchanged := by
  have hne := validate_ok_not_empty hv
  have hc1 : d1.cols ≠ [] := by
    have h1 := hne.1
    unfold Table.isEmpty at h1
    rw [Bool.or_eq_false_iff] at h1
    intro hcon
    rw [hcon] at h1
    exact absurd h1.2 (by simp)
  have hc2 : d2.cols ≠ [] := by
    have h2 := hne.2
    unfold Table.isEmpty at h2
    rw [Bool.or_eq_false_iff] at h2
    intro hcon
    rw [hcon] at h2
    exact absurd h2.2 (by simp)
  have hr1 : ∀ r ∈ d1.rows, r ≠ ([] : Record) := rows_ne_nil_of_wf hw1 hc1
  have hr2 : ∀ r ∈ d2.rows, r ≠ ([] : Record) := rows_ne_nil_of_wf hw2 hc2
  have hm1 := map_records_ne_nil hr1
  have hm2 := map_records_ne_nil hr2
  have hsome : ∀ k ∈ all_keys (create_data_map d1.rows) (create_data_map d2.rows),
      (processKey (create_data_map d1.rows) (create_data_map d2.rows) k).isSome = true :=
    fun k hk => processKey_isSome _ _ k hm1 hm2 ((mem_all_keys _ _ k).mp hk)
  have hlen : (compare d1.rows d2.rows).1.length =
      (all_keys (create_data_map d1.rows) (create_data_map d2.rows)).length := by
    rw [compare_items_eq]
    exact length_filterMap_of_isSome _ _ hsome
  have hU : ((create_data_map d1.rows).map Prod.fst ++
      (create_data_map d2.rows).map Prod.fst).toFinset =
      (((d1.rows.map generate_key).filter (fun k => k ≠ "")) ++
        ((d2.rows.map generate_key).filter (fun k => k ≠ ""))).toFinset := by
    ext k
    rw [List.mem_toFinset, List.mem_toFinset, List.mem_append, List.mem_append,
      mem_keys_create_data_map, mem_keys_create_data_map]
    constructor
    · rintro (⟨hne0, r, hr, hgk⟩ | ⟨hne0, r, hr, hgk⟩)
      · refine Or.inl (List.mem_filter.mpr ⟨List.mem_map.mpr ⟨r, hr, hgk⟩, ?_⟩)
        simpa using hne0
      · refine Or.inr (List.mem_filter.mpr ⟨List.mem_map.mpr ⟨r, hr, hgk⟩, ?_⟩)
        simpa using hne0
    · rintro (hmemf | hmemf)
      · obtain ⟨hmemm, hne0⟩ := List.mem_filter.mp hmemf
        obtain ⟨r, hr, hgk⟩ := List.mem_map.mp hmemm
        exact Or.inl ⟨by simpa using hne0, r, hr, hgk⟩
      · obtain ⟨hmemm, hne0⟩ := List.mem_filter.mp hmemf
        obtain ⟨r, hr, hgk⟩ := List.mem_map.mp hmemm
        exact Or.inr ⟨by simpa using hne0, r, hr, hgk⟩
  refine ⟨rfl, ?_, ?_, ?_, Nat.zero_le _, Nat.zero_le _, Nat.zero_le _, Nat.zero_le _⟩
  · rw [compare_summary_eq]
    exact countP_types_sum _
  · rw [hlen, length_all_keys, hU]
  · intro k hk
    rw [← hU, List.mem_toFinset] at hk
    have hk2 : k ∈ all_keys (create_data_map d1.rows) (create_data_map d2.rows) := by
      rw [mem_all_keys]
      exact List.mem_append.mp hk
    rw [compare_items_eq]
    exact filter_key_length_one _ _ _ (nodup_all_keys _ _) k hk2 (hsome k hk2)

/-- Witness table pair for the count claims: two rows with distinct keys
against one row sharing the first key. -/
def wt1 : Table := ⟨wcols, [wrowA, wrowC]⟩

/-- The second witness table. -/
def wt2 : Table := ⟨wcols, [wrowB]⟩

theorem C3_witness :
    (compare wt1.rows wt2.rows).2.total_items = (compare wt1.rows wt2.rows).1.length :=
  (C3_count_conservation wt1 wt2 (by unfold Table.wf; decide)
    (by unfold Table.wf; decide) (by decide)).2.1

/-- C6: for every produced comparison record, the exported display triple
(side-A stock, side-B stock, delta) satisfies: an added record shows no
side-A stock and no delta; a deleted record shows no side-B stock and no
delta; a modified or unchanged record shows each side rounded to an
integer (no decimal point) unless that side's display text is the
sentinel, which is shown verbatim; its delta is empty whenever either
side shows the sentinel and otherwise is the signed integer-rounded
difference — in particular an unchanged non-sentinel record shows
`"+0"`. -/
theorem C6_display_rules (d1 d2 : List Record) :
    ∀ i ∈ (compare d1 d2).1,
      (i.type = .added → (format_stock_display i).1 = "" ∧
        (format_stock_display i).2.2 = "") ∧
      (i.type = .deleted → (format_stock_display i).2.1 = "" ∧
        (format_stock_display i).2.2 = "") ∧
      ((i.type = .modified ∨ i.type = .unchanged) →
        ((format_stock_display i).1 =
          if i.stock1_display = "●" then "●" else toString (roundHalfEven i.stock1)) ∧
        ((format_stock_display i).2.1 =
          if i.stock2_display = "●" then "●" else toString (roundHalfEven i.stock2)) ∧
        ((i.stock1_display = "●" ∨ i.stock2_display = "●") →
          (format_stock_display i).2.2 = "") ∧
        (¬(i.stock1_display = "●" ∨ i.stock2_display = "●") →
          (format_stock_display i).2.2 = fmtPlusF0 i.stock_change) ∧
        (i.type = .unchanged → ¬(i.stock1_display = "●" ∨ i.stock2_display = "●") →
          (format_stock_display i).2.2 = "+0")) := by
  intro i hi
  rw [compare_items_eq] at hi
  obtain ⟨k, hk, hpk⟩ := List.mem_filterMap.mp hi
  obtain ⟨v1, v2, hs1, hd1, hs2, hd2, hch⟩ := processKey_shape hpk
  have hnn1 : 0 ≤ i.stock1 := hs1 ▸ parse_fst_nonneg v1
  have hnn2 : 0 ≤ i.stock2 := hs2 ▸ parse_fst_nonneg v2
  refine ⟨?_, ?_, ?_⟩
  · intro ht
    unfold format_stock_display
    rw [if_pos ht]
    exact ⟨rfl, rfl⟩
  · intro ht
    unfold format_stock_display
    rw [if_neg (by simp [ht]), if_pos ht]
    exact ⟨rfl, rfl⟩
  · intro hmu
    have hna : ¬ i.type = .added := by
      rcases hmu with h | h <;> simp [h]
    have hnd : ¬ i.type = .deleted := by
      rcases hmu with h | h <;> simp [h]
    unfold format_stock_display
    rw [if_neg hna, if_neg hnd]
    refine ⟨?_, ?_, ?_, ?_, ?_⟩
    · by_cases h1 : i.stock1_display = "●"
      · simp [h1]
      · simp [h1, fmtF0_nonneg hnn1]
    · by_cases h2 : i.stock2_display = "●"
      · simp [h2]
      · simp [h2, fmtF0_nonneg hnn2]
    · intro hsent
      rcases hsent with h | h <;> simp [h]
    · intro hns
      obtain ⟨hn1, hn2⟩ := not_or.mp hns
      simp [hn1, hn2]
    · intro hu hns
      obtain ⟨hn1, hn2⟩ := not_or.mp hns
      have heq := processKey_unchanged_displays hpk hu
      have hch0 : i.stock_change = 0 := by
        rw [hch, hs1, hs2]
        rw [@parse_numeric_congr v2 v1 (by rw [← hd1, ← hd2, heq])]
        exact sub_self _
      simp [hn1, hn2, hch0, fmtPlusF0_zero]

/-- The unchanged comparison record produced when both sides hold the
witness row with stock 10. -/
def witnessItem : ComparisonItem :=
  ⟨.unchanged, wrowA, 10, 10, "10", "10", 0, "X1|S|01|M|111"⟩

set_option maxRecDepth 4000 in
theorem C6_witness :
    witnessItem ∈ (compare [wrowA] [wrowA]).1 ∧
    (format_stock_display witnessItem).2.2 = "+0" :=
  have hr : mapGet (create_data_map [wrowA]) "X1|S|01|M|111" = some wrowA := by decide
  have hn : wrowA ≠ ([] : Record) := by decide
  have hmem : witnessItem ∈ (compare [wrowA] [wrowA]).1 := by
    rw [compare_items_eq]
    refine List.mem_filterMap.mpr ⟨"X1|S|01|M|111", ?_, ?_⟩
    · rw [mem_all_keys]
      left
      decide
    · rw [@processKey_both (create_data_map [wrowA]) (create_data_map [wrowA])
        "X1|S|01|M|111" wrowA wrowA hr hr hn hn]
      unfold witnessItem
      rw [Option.some.injEq, ComparisonItem.mk.injEq]
      refine ⟨?_, rfl, ?_, ?_, ?_, ?_, ?_, rfl⟩
      · with_unfolding_all decide
      · with_unfolding_all decide
      · with_unfolding_all decide
      · decide
      · decide
      · with_unfolding_all decide
  ⟨hmem, ((C6_display_rules [wrowA] [wrowA] witnessItem hmem).2.2
    (Or.inr rfl)).2.2.2.2 rfl (by decide)⟩

end InventoryDiff
